import Mathlib

/-!
# Verification of the rDock scoring-expression tokenizer

Shallow embedding of `src/src/lib/RbtStringTokenIter.cxx` (the streaming
tokenizer/classifier of the scoring-expression engine), together with the
Context (symbol table) it mutates.  The Context implementation
(`RbtStringContext::Assign` / `GetVble`) is not part of the provided sources,
so it is modelled from the specification; everything else follows the C++
source line by line.

Numeric values are modelled exactly: finite doubles become rationals (the
claims are about which value a slot holds at spec level, not about binary64
rounding), and the non-finite results of `strtod` become explicit
constructors.
-/

/-- The value domain of `RbtDouble` at spec level: finite values are kept
exactly as rationals, and the non-finite values `strtod` can produce are
explicit constructors. -/
inductive RbtDouble where
  | finite (q : ℚ)
  | posInf
  | negInf
  | nan
deriving DecidableEq, Repr

/-- The operator vocabulary of `RbtCommands` (`include/RbtCommands.h`):
the eight commands the classifier can emit. -/
inductive RbtCommands where
  | ADD | SUB | MUL | DIV | IF | LOG | EXP | AND
deriving DecidableEq, Repr

/-- An `RbtToken` is either an operator or a reference to a Context entry.
In the C++ code a variable token holds an `RbtVble&` obtained from
`GetVble(s)`; names are unique within a Context, so the entry's name is a
faithful stable handle and the token stores that name. -/
inductive RbtToken where
  | op (c : RbtCommands)
  | vble (name : String)
deriving DecidableEq, Repr

/-- The failures `translate` can raise (both are `RbtError` throws in the
C++ source, distinguished by their message). -/
inductive RbtError where
  /-- "Missing token, can't translate the expression" (empty word). -/
  | emptyToken
  /-- "Can't read " ++ s (unrecognized word). -/
  | unrecognizedToken (s : String)
deriving DecidableEq, Repr

/-- The Context's backing store: an association list from name to value,
in insertion order.  Names are unique (an invariant preserved by `Assign`). -/
abbrev RbtContext := List (String × RbtDouble)

/-- Modelled from the spec: `RbtStringContext::Assign` is not under `src/`;
per the spec's Context contract, `Assign(name, value)` creates-or-overwrites
the entry to the given value (overwriting happens in place, so the entry
keeps its position and identity and all live handles observe the new
value). -/
def ctxAssign : RbtContext → String → RbtDouble → RbtContext
  | [], n, v => [(n, v)]
  | (k, w) :: rest, n, v =>
      if k = n then (n, v) :: rest else (k, w) :: ctxAssign rest n v

/-- Modelled from the spec: reading a Context entry through its handle
(`Get(handle) -> double`, with the unique name as the handle); also the
lookup underlying `RbtStringContext::GetVble`. -/
def ctxGetValue (ctx : RbtContext) (n : String) : Option RbtDouble :=
  match ctx with
  | [] => none
  | (k, w) :: rest => if k = n then some w else ctxGetValue rest n

/-- The names present in a Context, in insertion order. -/
def ctxKeys (ctx : RbtContext) : List String := ctx.map Prod.fst

/-- `startsWithL pat cs`: `pat` is a prefix of `cs` (character lists). -/
def startsWithL : List Char → List Char → Bool
  | [], _ => true
  | _ :: _, [] => false
  | a :: as, b :: bs => a = b && startsWithL as bs

/-- `hasSubL pat cs`: `pat` occurs as a contiguous substring of `cs`. -/
def hasSubL (pat : List Char) : List Char → Bool
  | [] => startsWithL pat []
  | c :: rest => startsWithL pat (c :: rest) || hasSubL pat rest

/-- `hasSub s pat`: the C++ test `string::npos != s.find(pat)`, i.e. `pat`
occurs as a contiguous substring of `s` (case-sensitive). -/
def hasSub (s pat : String) : Bool := hasSubL pat.data s.data

/-- Digit list to natural number, most significant first. -/
def digitsToNat (ds : List Char) : Nat :=
  ds.foldl (fun a c => 10 * a + (c.toNat - 48)) 0

/-- The finite value of a parsed decimal literal: sign, integer digits,
fraction digits, and a base-10 exponent. -/
def decValue (neg : Bool) (ip fp : List Char) (ex : Int) : ℚ :=
  let m : ℚ := (digitsToNat (ip ++ fp) : ℚ) / ((10 : ℚ) ^ fp.length)
  let v : ℚ := m * (10 : ℚ) ^ ex
  if neg then -v else v

/-- Parse the exponent tail (`[eE][+-]?digits`, or nothing) of a decimal
literal; the whole remainder must be consumed. -/
def parseExpTail (neg : Bool) (ip fp : List Char) :
    List Char → Option RbtDouble
  | [] => some (.finite (decValue neg ip fp 0))
  | e :: r =>
      if e = 'e' ∨ e = 'E' then
        let (eneg, r2) : Bool × List Char :=
          match r with
          | '+' :: t => (false, t)
          | '-' :: t => (true, t)
          | t => (false, t)
        let eds := r2.takeWhile Char.isDigit
        let rest := r2.dropWhile Char.isDigit
        if eds.isEmpty ∨ ¬rest.isEmpty then none
        else
          let ex : Int :=
            if eneg then -(digitsToNat eds : Int) else (digitsToNat eds : Int)
          some (.finite (decValue neg ip fp ex))
      else none

/-- Parse an unsigned decimal literal `digits[.digits][exp]` or
`.digits[exp]`, consuming the whole character list. -/
def parseDec (neg : Bool) (cs : List Char) : Option RbtDouble :=
  let ip := cs.takeWhile Char.isDigit
  let rest1 := cs.dropWhile Char.isDigit
  match rest1 with
  | '.' :: r2 =>
      let fp := r2.takeWhile Char.isDigit
      let rest2 := r2.dropWhile Char.isDigit
      if ip.isEmpty ∧ fp.isEmpty then none
      else parseExpTail neg ip fp rest2
  | _ =>
      if ip.isEmpty then none else parseExpTail neg ip fp0 rest1
where fp0 : List Char := []

/-- Model of the C library `strtod` as used at
`RbtStringTokenIter.cxx:97-98`: the word is accepted iff `strtod` consumes
it entirely (`!*error`) with no conversion error (`!errno`), and the model
returns the converted value.  Covered grammar: optional sign, then a decimal
literal `digits[.digits][(e|E)[+-]?digits]` or `.digits[...]`, or the
case-insensitive spellings `inf`/`infinity` (non-finite infinity) and
`nan` (not-a-number).  Out of model: hexadecimal floats, `nan(chars)`
payloads, locale extensions, and out-of-range literals (which set `errno`
to `ERANGE` and are rejected by the C++ check); no claim exercises these. -/
def strtodFull (s : String) : Option RbtDouble :=
  match s.data with
  | [] => none
  | cs =>
      let (neg, cs') : Bool × List Char :=
        match cs with
        | '+' :: r => (false, r)
        | '-' :: r => (true, r)
        | _ => (false, cs)
      let low := cs'.map Char.toLower
      if low = "inf".data ∨ low = "infinity".data then
        some (if neg then .negInf else .posInf)
      else if low = "nan".data then some .nan
      else parseDec neg cs'

/-- `RbtStringTokenIter::translate` (`RbtStringTokenIter.cxx:64-105`):
classify one raw word against the shared Context, returning the token and
the updated Context, or the error thrown. -/
def RbtStringTokenIter.translate (ctx : RbtContext) (s : String) :
    Except RbtError (RbtToken × RbtContext) :=
  if s.length = 0 then .error .emptyToken
  else if s = "+" then .ok (.op .ADD, ctx)
  else if s = "-" then .ok (.op .SUB, ctx)
  else if s = "*" then .ok (.op .MUL, ctx)
  else if s = "/" then .ok (.op .DIV, ctx)
  else if s = "if" then .ok (.op .IF, ctx)
  else if s = "log" then .ok (.op .LOG, ctx)
  else if s = "exp" then .ok (.op .EXP, ctx)
  else if s = "and" then .ok (.op .AND, ctx)
  else if hasSub s "SCORE" ∨ hasSub s "SITE" ∨ hasSub s "LIG" then
    .ok (.vble s, ctxAssign ctx s (.finite 0))
  else
    match strtodFull s with
    | some v => .ok (.vble s, ctxAssign ctx s v)
    | none => .error (.unrecognizedToken s)

/-- State of an `RbtStringTokenIter`: the unread remainder of the stream
(`filep`, already split into whitespace-delimited words), the buffered raw
word (`strtok`), and the cached token from the last `Current()` call
(`current`, `none` before the first call).  The shared Context is threaded
separately through each operation, mirroring the `contextp` shared
pointer. -/
structure RbtStringTokenIter where
  filep : List String
  strtok : String
  current : Option RbtToken
deriving DecidableEq, Repr

/-- Split a raw character stream into the words `istream >> string`
extraction yields: maximal runs of non-whitespace characters. -/
def wordsAux : List Char → List Char → List String
  | [], acc => if acc.isEmpty then [] else [⟨acc.reverse⟩]
  | c :: rest, acc =>
      if c.isWhitespace then
        if acc.isEmpty then wordsAux rest []
        else ⟨acc.reverse⟩ :: wordsAux rest []
      else wordsAux rest (c :: acc)

/-- The whitespace-delimited words of a stream's full contents. -/
def streamWords (s : String) : List String := wordsAux s.data []

/-- The constructor `RbtStringTokenIter(istreamPtr, RbtContextPtr)`
(`RbtStringTokenIter.cxx:26-31`): it performs one extraction
`*filep >> strtok`; on an empty or exhausted stream the extraction fails
and leaves `strtok` as the empty string (C++11 extraction failure
value-initializes the string).  `current` starts as a null smart pointer. -/
def RbtStringTokenIter.mkIter (ws : List String) : RbtStringTokenIter :=
  match ws with
  | [] => ⟨[], "", none⟩
  | w :: rest => ⟨rest, w, none⟩

/-- `RbtStringTokenIter::Next(RbtContextPtr)` (`RbtStringTokenIter.cxx:45-48`):
`*filep >> strtok`.  The `RbtContextPtr` parameter is unnamed in the source
and never used; `arg` models it.  `ctx` is the shared Context state, which
`Next` passes through untouched.  At end of stream the extraction fails and
clears `strtok`. -/
def RbtStringTokenIter.Next (it : RbtStringTokenIter) (arg : RbtContext)
    (ctx : RbtContext) : RbtStringTokenIter × RbtContext :=
  match it.filep with
  | [] => ({ it with strtok := "" }, ctx)
  | w :: rest => ({ it with filep := rest, strtok := w }, ctx)

/-- `RbtStringTokenIter::Current()` (`RbtStringTokenIter.cxx:50-54`):
`current = translate(strtok); return current;`.  If `translate` throws, the
exception propagates before `current` is assigned. -/
def RbtStringTokenIter.Current (it : RbtStringTokenIter) (ctx : RbtContext) :
    Except RbtError (RbtToken × RbtStringTokenIter × RbtContext) :=
  match RbtStringTokenIter.translate ctx it.strtok with
  | .ok (tok, ctx') => .ok (tok, { it with current := some tok }, ctx')
  | .error e => .error e

/-- One client-visible iterator operation: a `Current()` call or an
advance (`Next(contextp)`, as callers invoke it with the shared context). -/
inductive IterOp where
  | curr
  | adv
deriving DecidableEq, Repr

/-- Run a sequence of iterator operations from a given iterator/Context
state.  A `Current()` failure is a thrown exception, so it aborts the
remaining sequence. -/
def runOps : List IterOp → RbtStringTokenIter × RbtContext →
    RbtStringTokenIter × RbtContext
  | [], s => s
  | .adv :: rest, (it, ctx) => runOps rest (it.Next ctx ctx)
  | .curr :: rest, (it, ctx) =>
      match it.Current ctx with
      | .ok (_, it', ctx') => runOps rest (it', ctx')
      | .error _ => (it, ctx)

/-- The variable names and literal strings classified along a run of
iterator operations: the buffered words of the non-throwing `Current()`
calls that returned a VariableRef.  Operator classifications contribute
nothing. -/
def classifiedNames : List IterOp → RbtStringTokenIter × RbtContext →
    List String
  | [], _ => []
  | .adv :: rest, (it, ctx) => classifiedNames rest (it.Next ctx ctx)
  | .curr :: rest, (it, ctx) =>
      match it.Current ctx with
      | .ok (.vble n, it', ctx') => n :: classifiedNames rest (it', ctx')
      | .ok (.op _, it', ctx') => classifiedNames rest (it', ctx')
      | .error _ => []

/-! ## Basic lemmas about the Context model -/

theorem ctxGetValue_assign_self (ctx : RbtContext) (n : String)
    (v : RbtDouble) : ctxGetValue (ctxAssign ctx n v) n = some v := by
  induction ctx with
  | nil => simp [ctxAssign, ctxGetValue]
  | cons p rest ih =>
      obtain ⟨k, w⟩ := p
      by_cases hk : k = n <;> simp [ctxAssign, ctxGetValue, hk, ih]

theorem ctxAssign_idem (ctx : RbtContext) (n : String) (v : RbtDouble) :
    ctxAssign (ctxAssign ctx n v) n v = ctxAssign ctx n v := by
  induction ctx with
  | nil => simp [ctxAssign]
  | cons p rest ih =>
      obtain ⟨k, w⟩ := p
      by_cases hk : k = n <;> simp [ctxAssign, hk, ih]

theorem ctxKeys_cons (k : String) (w : RbtDouble) (rest : RbtContext) :
    ctxKeys ((k, w) :: rest) = k :: ctxKeys rest := rfl

theorem ctxKeys_assign_mem (ctx : RbtContext) (n : String) (v : RbtDouble)
    (h : n ∈ ctxKeys ctx) : ctxKeys (ctxAssign ctx n v) = ctxKeys ctx := by
  induction ctx with
  | nil => simp [ctxKeys] at h
  | cons p rest ih =>
      obtain ⟨k, w⟩ := p
      rw [ctxKeys_cons] at h
      by_cases hk : k = n
      · simp [ctxAssign, hk, ctxKeys_cons]
      · have hn : n ∈ ctxKeys rest := by
          rcases List.mem_cons.mp h with h' | h'
          · exact absurd h'.symm hk
          · exact h'
        simp [ctxAssign, hk, ctxKeys_cons, ih hn]

theorem ctxKeys_assign_not_mem (ctx : RbtContext) (n : String)
    (v : RbtDouble) (h : n ∉ ctxKeys ctx) :
    ctxKeys (ctxAssign ctx n v) = ctxKeys ctx ++ [n] := by
  induction ctx with
  | nil => simp [ctxAssign, ctxKeys]
  | cons p rest ih =>
      obtain ⟨k, w⟩ := p
      simp [ctxKeys] at h
      push_neg at h
      by_cases hk : k = n
      · exact absurd hk.symm h.1
      · simp [ctxAssign, ctxKeys, hk] at ih ⊢
        exact ih h.2

theorem ctxKeys_assign_sub (ctx : RbtContext) (n : String) (v : RbtDouble) :
    ∀ k ∈ ctxKeys ctx, k ∈ ctxKeys (ctxAssign ctx n v) := by
  intro k hk
  by_cases h : n ∈ ctxKeys ctx
  · rw [ctxKeys_assign_mem ctx n v h]; exact hk
  · rw [ctxKeys_assign_not_mem ctx n v h]; exact List.mem_append_left _ hk

theorem ctxKeys_assign_nodup (ctx : RbtContext) (n : String) (v : RbtDouble)
    (h : (ctxKeys ctx).Nodup) : (ctxKeys (ctxAssign ctx n v)).Nodup := by
  by_cases hm : n ∈ ctxKeys ctx
  · rw [ctxKeys_assign_mem ctx n v hm]; exact h
  · rw [ctxKeys_assign_not_mem ctx n v hm]
    simpa [List.nodup_append] using ⟨h, hm⟩

/-! ## Branch lemmas for `translate` -/

/-- The classifier's scored-quantity test: the word contains `SCORE`,
`SITE`, or `LIG` as a substring. -/
def isScoreWord (w : String) : Prop :=
  hasSub w "SCORE" ∨ hasSub w "SITE" ∨ hasSub w "LIG"

instance (w : String) : Decidable (isScoreWord w) := by
  unfold isScoreWord; infer_instance

theorem length_ne_zero_of_ne_empty (w : String) (h : w ≠ "") :
    w.length ≠ 0 := by
  intro hl
  apply h
  obtain ⟨d⟩ := w
  simp [String.length] at hl
  simp [hl]

theorem scoreWord_ne_empty (w : String) (h : isScoreWord w) : w ≠ "" := by
  intro he; subst he; revert h; decide

theorem scoreWord_ne_ops (w : String) (h : isScoreWord w) :
    w ≠ "+" ∧ w ≠ "-" ∧ w ≠ "*" ∧ w ≠ "/" ∧ w ≠ "if" ∧ w ≠ "log" ∧
      w ≠ "exp" ∧ w ≠ "and" := by
  refine ⟨?_, ?_, ?_, ?_, ?_, ?_, ?_, ?_⟩ <;>
    (intro he; subst he; revert h; decide)

theorem translate_score (ctx : RbtContext) (w : String)
    (h : isScoreWord w) :
    RbtStringTokenIter.translate ctx w =
      .ok (.vble w, ctxAssign ctx w (.finite 0)) := by
  obtain ⟨h1, h2, h3, h4, h5, h6, h7, h8⟩ := scoreWord_ne_ops w h
  have h0 := length_ne_zero_of_ne_empty w (scoreWord_ne_empty w h)
  have h' : hasSub w "SCORE" = true ∨ hasSub w "SITE" = true ∨
      hasSub w "LIG" = true := h
  unfold RbtStringTokenIter.translate
  rw [if_neg h0, if_neg h1, if_neg h2, if_neg h3, if_neg h4, if_neg h5,
    if_neg h6, if_neg h7, if_neg h8, if_pos h']

theorem lit_ne_empty_ops (w : String)
    (hp : (strtodFull w).isSome = true) :
    w ≠ "" ∧ w ≠ "+" ∧ w ≠ "-" ∧ w ≠ "*" ∧ w ≠ "/" ∧ w ≠ "if" ∧
      w ≠ "log" ∧ w ≠ "exp" ∧ w ≠ "and" := by
  refine ⟨?_, ?_, ?_, ?_, ?_, ?_, ?_, ?_, ?_⟩ <;>
    (intro he; subst he; revert hp; decide)

theorem translate_lit (ctx : RbtContext) (w : String) (v : RbtDouble)
    (hs : ¬isScoreWord w) (hp : strtodFull w = some v) :
    RbtStringTokenIter.translate ctx w = .ok (.vble w, ctxAssign ctx w v) := by
  obtain ⟨h0', h1, h2, h3, h4, h5, h6, h7, h8⟩ :=
    lit_ne_empty_ops w (by rw [hp]; rfl)
  have h0 := length_ne_zero_of_ne_empty w h0'
  have hs' : ¬(hasSub w "SCORE" = true ∨ hasSub w "SITE" = true ∨
      hasSub w "LIG" = true) := hs
  unfold RbtStringTokenIter.translate
  rw [if_neg h0, if_neg h1, if_neg h2, if_neg h3, if_neg h4, if_neg h5,
    if_neg h6, if_neg h7, if_neg h8, if_neg hs', hp]

theorem translate_unrec (ctx : RbtContext) (w : String) (h0' : w ≠ "")
    (h1 : w ≠ "+") (h2 : w ≠ "-") (h3 : w ≠ "*") (h4 : w ≠ "/")
    (h5 : w ≠ "if") (h6 : w ≠ "log") (h7 : w ≠ "exp") (h8 : w ≠ "and")
    (hs : ¬isScoreWord w) (hp : strtodFull w = none) :
    RbtStringTokenIter.translate ctx w = .error (.unrecognizedToken w) := by
  have h0 := length_ne_zero_of_ne_empty w h0'
  have hs' : ¬(hasSub w "SCORE" = true ∨ hasSub w "SITE" = true ∨
      hasSub w "LIG" = true) := hs
  unfold RbtStringTokenIter.translate
  rw [if_neg h0, if_neg h1, if_neg h2, if_neg h3, if_neg h4, if_neg h5,
    if_neg h6, if_neg h7, if_neg h8, if_neg hs', hp]

/-- Any successful classification either leaves the Context untouched (an
operator) or performs exactly one `Assign` keyed by the classified word. -/
theorem translate_ok_cases (ctx : RbtContext) (w : String) (t : RbtToken)
    (ctx' : RbtContext)
    (h : RbtStringTokenIter.translate ctx w = .ok (t, ctx')) :
    ctx' = ctx ∨ ∃ v, t = .vble w ∧ ctx' = ctxAssign ctx w v := by
  unfold RbtStringTokenIter.translate at h
  repeat' split at h
  all_goals (try cases h)
  all_goals try (left; rfl)
  all_goals (right; exact ⟨_, rfl, rfl⟩)

/-- Re-classifying the word a successful classification just classified,
against the Context it produced, returns the same token and the same
Context (a second `Assign` of the same value is a no-op). -/
theorem translate_idem (ctx : RbtContext) (w : String) (t : RbtToken)
    (ctx' : RbtContext)
    (h : RbtStringTokenIter.translate ctx w = .ok (t, ctx')) :
    RbtStringTokenIter.translate ctx' w = .ok (t, ctx') := by
  unfold RbtStringTokenIter.translate at h ⊢
  repeat' split at h
  all_goals (try cases h)
  all_goals simp_all [ctxAssign_idem]

/-- The classifier's fixed operator vocabulary, in source order. -/
def opWords : List String := ["+", "-", "*", "/", "if", "log", "exp", "and"]

theorem next_snd (it : RbtStringTokenIter) (a ctx : RbtContext) :
    (it.Next a ctx).2 = ctx := by
  cases hf : it.filep <;> simp [RbtStringTokenIter.Next, hf]

theorem current_ok_inv (it : RbtStringTokenIter) (ctx : RbtContext)
    (t : RbtToken) (it' : RbtStringTokenIter) (ctx' : RbtContext)
    (h : it.Current ctx = .ok (t, it', ctx')) :
    RbtStringTokenIter.translate ctx it.strtok = .ok (t, ctx') ∧
    it' = { it with current := some t } := by
  unfold RbtStringTokenIter.Current at h
  cases heq : RbtStringTokenIter.translate ctx it.strtok with
  | error e => rw [heq] at h; cases h
  | ok p =>
      obtain ⟨t₂, c₂⟩ := p
      rw [heq] at h
      cases h
      exact ⟨rfl, rfl⟩

/-- C3: every word of the fixed operator vocabulary is classified as the
corresponding Operator token, and the Context is returned completely
unchanged (no entry inserted, removed, or overwritten). -/
theorem translate_operator_vocabulary (ctx : RbtContext) :
    RbtStringTokenIter.translate ctx "+" = .ok (.op .ADD, ctx) ∧
    RbtStringTokenIter.translate ctx "-" = .ok (.op .SUB, ctx) ∧
    RbtStringTokenIter.translate ctx "*" = .ok (.op .MUL, ctx) ∧
    RbtStringTokenIter.translate ctx "/" = .ok (.op .DIV, ctx) ∧
    RbtStringTokenIter.translate ctx "if" = .ok (.op .IF, ctx) ∧
    RbtStringTokenIter.translate ctx "log" = .ok (.op .LOG, ctx) ∧
    RbtStringTokenIter.translate ctx "exp" = .ok (.op .EXP, ctx) ∧
    RbtStringTokenIter.translate ctx "and" = .ok (.op .AND, ctx) :=
  ⟨rfl, rfl, rfl, rfl, rfl, rfl, rfl, rfl⟩

/-- C6: classifying the empty word fails with the EmptyToken error, and a
TokenIterator constructed over an empty stream (whose pre-fetch leaves the
buffered word empty) reports EmptyToken from its first `Current()` instead
of swallowing it. -/
theorem empty_word_and_empty_stream_fail (ctx : RbtContext) :
    RbtStringTokenIter.translate ctx "" = .error .emptyToken ∧
    (RbtStringTokenIter.mkIter (streamWords "")).Current ctx =
      .error .emptyToken :=
  ⟨rfl, rfl⟩

/-- C9: the numeric-literal branch accepts every word the C string-to-double
conversion consumes in full, including the non-finite spellings `inf` and
`nan`: neither fails, and each creates a Context entry keyed by the word and
holding the converted non-finite value, returning a VariableRef bound to
it. -/
theorem inf_nan_words_accepted (ctx : RbtContext) :
    RbtStringTokenIter.translate ctx "inf" =
      .ok (.vble "inf", ctxAssign ctx "inf" .posInf) ∧
    ctxGetValue (ctxAssign ctx "inf" .posInf) "inf" = some .posInf ∧
    RbtStringTokenIter.translate ctx "nan" =
      .ok (.vble "nan", ctxAssign ctx "nan" .nan) ∧
    ctxGetValue (ctxAssign ctx "nan" .nan) "nan" = some .nan :=
  ⟨translate_lit ctx "inf" .posInf (by decide) (by decide),
   ctxGetValue_assign_self ctx "inf" .posInf,
   translate_lit ctx "nan" .nan (by decide) (by decide),
   ctxGetValue_assign_self ctx "nan" .nan⟩

/-- C5: a non-empty word that matches no operator word, contains none of
the substrings SCORE/SITE/LIG, and is not consumed in full by the
floating-point parse makes the Classifier fail with UnrecognizedToken — it
never substitutes a default value or returns a token. -/
theorem unrecognized_word_fails (ctx : RbtContext) (w : String)
    (h0 : w ≠ "") (h1 : w ≠ "+") (h2 : w ≠ "-") (h3 : w ≠ "*")
    (h4 : w ≠ "/") (h5 : w ≠ "if") (h6 : w ≠ "log") (h7 : w ≠ "exp")
    (h8 : w ≠ "and") (hs : ¬isScoreWord w) (hp : strtodFull w = none) :
    RbtStringTokenIter.translate ctx w = .error (.unrecognizedToken w) :=
  translate_unrec ctx w h0 h1 h2 h3 h4 h5 h6 h7 h8 hs hp

/-- Witness for C5 at the spec's own examples `"3.14x"` and `"foo"`. -/
theorem unrecognized_word_fails_witness :
    RbtStringTokenIter.translate [] "3.14x" =
      .error (.unrecognizedToken "3.14x") ∧
    RbtStringTokenIter.translate [] "foo" =
      .error (.unrecognizedToken "foo") :=
  ⟨unrecognized_word_fails [] "3.14x" (by decide) (by decide) (by decide)
      (by decide) (by decide) (by decide) (by decide) (by decide) (by decide)
      (by decide) (by decide),
   unrecognized_word_fails [] "foo" (by decide) (by decide) (by decide)
      (by decide) (by decide) (by decide) (by decide) (by decide) (by decide)
      (by decide) (by decide)⟩

/-- C1 counterexample: after `"SCORE.INTER"` is first classified (slot value
0.0) and the external engine assigns 1.0 to the slot, classifying the same
word again does NOT leave "whatever value was last assigned": the `Assign(s,
0.0)` call at `RbtStringTokenIter.cxx:90` resets the existing entry to
0.0. -/
theorem score_reclassify_reset_cex :
    RbtStringTokenIter.translate [] "SCORE.INTER" =
      .ok (.vble "SCORE.INTER", [("SCORE.INTER", RbtDouble.finite 0)]) ∧
    ctxAssign [("SCORE.INTER", RbtDouble.finite 0)] "SCORE.INTER"
        (.finite 1) = [("SCORE.INTER", RbtDouble.finite 1)] ∧
    RbtStringTokenIter.translate [("SCORE.INTER", RbtDouble.finite 1)]
        "SCORE.INTER" =
      .ok (.vble "SCORE.INTER", [("SCORE.INTER", RbtDouble.finite 0)]) ∧
    ctxGetValue [("SCORE.INTER", RbtDouble.finite 0)] "SCORE.INTER" ≠
      some (RbtDouble.finite 1) := by
  exact ⟨rfl, rfl, rfl, by decide⟩

/-- C1 (amended): every word containing SCORE, SITE, or LIG as a substring
classifies to a VariableRef whose slot holds 0.0 on first sight; classifying
the same word again resolves to the same single slot (no duplication) but
re-assigns 0.0 to it, overwriting whatever value was last assigned. -/
theorem score_word_classification (ctx : RbtContext) (w : String)
    (h : isScoreWord w) :
    RbtStringTokenIter.translate ctx w =
      .ok (.vble w, ctxAssign ctx w (.finite 0)) ∧
    ctxGetValue (ctxAssign ctx w (.finite 0)) w = some (.finite 0) ∧
    RbtStringTokenIter.translate (ctxAssign ctx w (.finite 0)) w =
      .ok (.vble w, ctxAssign ctx w (.finite 0)) := by
  refine ⟨translate_score ctx w h, ctxGetValue_assign_self ctx w _, ?_⟩
  have h2 := translate_score (ctxAssign ctx w (.finite 0)) w h
  rwa [ctxAssign_idem] at h2

/-- Witness for the amended C1 at the word `"SCORE.INTER"`. -/
theorem score_word_classification_witness :
    RbtStringTokenIter.translate [] "SCORE.INTER" =
      .ok (.vble "SCORE.INTER", ctxAssign [] "SCORE.INTER" (.finite 0)) ∧
    ctxGetValue (ctxAssign [] "SCORE.INTER" (.finite 0)) "SCORE.INTER" =
      some (.finite 0) ∧
    RbtStringTokenIter.translate (ctxAssign [] "SCORE.INTER" (.finite 0))
        "SCORE.INTER" =
      .ok (.vble "SCORE.INTER", ctxAssign [] "SCORE.INTER" (.finite 0)) :=
  score_word_classification [] "SCORE.INTER" (by decide)

/-- The parsed value of the literal `"3.14"` is exactly 3.14 = 157/50. -/
theorem pi_val : decValue false ['3'] ['1', '4'] 0 = 157/50 := by
  have hd : digitsToNat ['3', '1', '4'] = 314 := rfl
  norm_num [decValue, hd]

/-- The word `"3.14"` is consumed in full by the strtod model, yielding
the exact value 157/50. -/
theorem strtod_pi : strtodFull "3.14" = some (RbtDouble.finite (157/50)) := by
  rw [show strtodFull "3.14" =
    some (.finite (decValue false ['3'] ['1', '4'] 0)) from rfl, pi_val]

/-- C2 counterexample: on the stream `"3.14 LOG"` the second word `"LOG"`
(upper case) is NOT the operator keyword `"log"`, contains none of
SCORE/SITE/LIG, and fails the numeric parse, so the second `Current()`
throws UnrecognizedToken instead of producing the LOG operator. -/
theorem uppercase_log_stream_cex :
    RbtStringTokenIter.mkIter (streamWords "3.14 LOG") =
      ⟨["LOG"], "3.14", none⟩ ∧
    RbtStringTokenIter.Current ⟨["LOG"], "3.14", none⟩ [] =
      .ok (.vble "3.14", ⟨["LOG"], "3.14", some (.vble "3.14")⟩,
        [("3.14", RbtDouble.finite (157/50))]) ∧
    RbtStringTokenIter.Next ⟨["LOG"], "3.14", some (.vble "3.14")⟩
        [("3.14", RbtDouble.finite (157/50))]
        [("3.14", RbtDouble.finite (157/50))] =
      (⟨[], "LOG", some (.vble "3.14")⟩,
        [("3.14", RbtDouble.finite (157/50))]) ∧
    RbtStringTokenIter.Current ⟨[], "LOG", some (.vble "3.14")⟩
        [("3.14", RbtDouble.finite (157/50))] =
      .error (.unrecognizedToken "LOG") := by
  refine ⟨rfl, ?_, rfl, rfl⟩
  rw [show (157/50 : ℚ) = decValue false ['3'] ['1', '4'] 0 from pi_val.symm]
  rfl

/-- C2 (amended): for the stream `"3.14 log"` (the keyword operators are
lower-case) tokenization succeeds end to end: the first word yields a
VariableRef keyed by the exact string `"3.14"` with value 3.14, and the
second word yields the LOG operator token with no failure. -/
theorem pi_log_stream_tokenizes :
    streamWords "3.14 log" = ["3.14", "log"] ∧
    RbtStringTokenIter.mkIter (streamWords "3.14 log") =
      ⟨["log"], "3.14", none⟩ ∧
    RbtStringTokenIter.Current ⟨["log"], "3.14", none⟩ [] =
      .ok (.vble "3.14", ⟨["log"], "3.14", some (.vble "3.14")⟩,
        [("3.14", RbtDouble.finite (157/50))]) ∧
    ctxGetValue [("3.14", RbtDouble.finite (157/50))] "3.14" =
      some (.finite (157/50)) ∧
    RbtStringTokenIter.Next ⟨["log"], "3.14", some (.vble "3.14")⟩
        [("3.14", RbtDouble.finite (157/50))]
        [("3.14", RbtDouble.finite (157/50))] =
      (⟨[], "log", some (.vble "3.14")⟩,
        [("3.14", RbtDouble.finite (157/50))]) ∧
    RbtStringTokenIter.Current ⟨[], "log", some (.vble "3.14")⟩
        [("3.14", RbtDouble.finite (157/50))] =
      .ok (.op .LOG, ⟨[], "log", some (.op .LOG)⟩,
        [("3.14", RbtDouble.finite (157/50))]) := by
  refine ⟨rfl, rfl, ?_, rfl, rfl, rfl⟩
  rw [show (157/50 : ℚ) = decValue false ['3'] ['1', '4'] 0 from pi_val.symm]
  rfl

/-- C4: a word that is no operator, contains none of SCORE/SITE/LIG, and is
consumed entirely by the floating-point parse is entered into the Context
under its exact string form with the parsed value — overwriting any
existing entry under that key (the initial Context is arbitrary) — and a
VariableRef bound to that entry is returned; a second occurrence of the
identical literal resolves to the same slot, leaving the Context as is. -/
theorem literal_word_classification (ctx : RbtContext) (w : String)
    (v : RbtDouble) (hop : w ∉ opWords) (hs : ¬isScoreWord w)
    (hp : strtodFull w = some v) :
    RbtStringTokenIter.translate ctx w = .ok (.vble w, ctxAssign ctx w v) ∧
    ctxGetValue (ctxAssign ctx w v) w = some v ∧
    RbtStringTokenIter.translate (ctxAssign ctx w v) w =
      .ok (.vble w, ctxAssign ctx w v) := by
  refine ⟨translate_lit ctx w v hs hp, ctxGetValue_assign_self ctx w v, ?_⟩
  have h2 := translate_lit (ctxAssign ctx w v) w v hs hp
  rwa [ctxAssign_idem] at h2

/-- Witness for C4 at the literal `"3.14"` over a Context that already maps
`"3.14"` to 99 (exhibiting the overwrite). -/
theorem literal_word_classification_witness :
    RbtStringTokenIter.translate [("3.14", RbtDouble.finite 99)] "3.14" =
      .ok (.vble "3.14",
        ctxAssign [("3.14", RbtDouble.finite 99)] "3.14"
          (.finite (157/50))) ∧
    ctxGetValue (ctxAssign [("3.14", RbtDouble.finite 99)] "3.14"
        (.finite (157/50))) "3.14" = some (.finite (157/50)) ∧
    RbtStringTokenIter.translate
        (ctxAssign [("3.14", RbtDouble.finite 99)] "3.14"
          (.finite (157/50))) "3.14" =
      .ok (.vble "3.14",
        ctxAssign [("3.14", RbtDouble.finite 99)] "3.14"
          (.finite (157/50))) :=
  literal_word_classification [("3.14", RbtDouble.finite 99)] "3.14"
    (.finite (157/50)) (by decide) (by decide) strtod_pi

/-- C7: calling `Current()` twice with no intervening `Advance()` is
idempotent with respect to the Context: the second call returns the very
same token (hence a reference to the identical Context slot) and the very
same Context (so no duplicate entry is created and the Context does not
grow). -/
theorem current_twice_idempotent (it : RbtStringTokenIter)
    (ctx : RbtContext) (tok : RbtToken) (it' : RbtStringTokenIter)
    (ctx' : RbtContext) (h : it.Current ctx = .ok (tok, it', ctx')) :
    it'.Current ctx' = .ok (tok, it', ctx') := by
  obtain ⟨htr, rfl⟩ := current_ok_inv it ctx tok it' ctx' h
  have h2 := translate_idem ctx it.strtok tok ctx' htr
  unfold RbtStringTokenIter.Current
  simp only []
  rw [show ({ it with current := some tok } : RbtStringTokenIter).strtok =
    it.strtok from rfl, h2]

/-- Witness for C7: a `Current()` on the buffered word `"SCORE"` followed by
a second `Current()`. -/
theorem current_twice_idempotent_witness :
    RbtStringTokenIter.Current ⟨[], "SCORE", some (.vble "SCORE")⟩
        [("SCORE", RbtDouble.finite 0)] =
      .ok (.vble "SCORE", ⟨[], "SCORE", some (.vble "SCORE")⟩,
        [("SCORE", RbtDouble.finite 0)]) :=
  current_twice_idempotent ⟨[], "SCORE", none⟩ [] (.vble "SCORE")
    ⟨[], "SCORE", some (.vble "SCORE")⟩ [("SCORE", RbtDouble.finite 0)] rfl

/-- Per-classification Context effect: keys are preserved, at most the
classified word is added, uniqueness of names is preserved, and the size
grows by at most one. -/
theorem translate_step_keys (ctx : RbtContext) (w : String) (t : RbtToken)
    (ctx' : RbtContext)
    (h : RbtStringTokenIter.translate ctx w = .ok (t, ctx')) :
    (∀ k ∈ ctxKeys ctx, k ∈ ctxKeys ctx') ∧
    (∀ k ∈ ctxKeys ctx', k ∈ ctxKeys ctx ∨ k = w) ∧
    ((ctxKeys ctx).Nodup → (ctxKeys ctx').Nodup) ∧
    (ctxKeys ctx').length ≤ (ctxKeys ctx).length + 1 := by
  rcases translate_ok_cases ctx w t ctx' h with rfl | ⟨v, _, rfl⟩
  · exact ⟨fun k hk => hk, fun k hk => Or.inl hk, id, Nat.le_succ _⟩
  · by_cases hm : w ∈ ctxKeys ctx
    · rw [ctxKeys_assign_mem ctx w v hm]
      exact ⟨fun k hk => hk, fun k hk => Or.inl hk, id, Nat.le_succ _⟩
    · rw [ctxKeys_assign_not_mem ctx w v hm]
      refine ⟨fun k hk => List.mem_append_left _ hk, ?_, ?_, ?_⟩
      · intro k hk
        rcases List.mem_append.mp hk with hk' | hk'
        · exact Or.inl hk'
        · exact Or.inr (List.mem_singleton.mp hk')
      · intro hnd
        simpa [List.nodup_append] using ⟨hnd, hm⟩
      · simp

/-- Along any run of iterator operations the Context keys only accumulate:
nothing is removed, every new key is a variable or literal name classified
during the run (operator classifications add none), and name-uniqueness is
preserved. -/
theorem runOps_keys (ops : List IterOp) :
    ∀ (it : RbtStringTokenIter) (ctx : RbtContext),
      (∀ k ∈ ctxKeys ctx, k ∈ ctxKeys (runOps ops (it, ctx)).2) ∧
      (∀ k ∈ ctxKeys (runOps ops (it, ctx)).2,
        k ∈ ctxKeys ctx ∨ k ∈ classifiedNames ops (it, ctx)) ∧
      ((ctxKeys ctx).Nodup → (ctxKeys (runOps ops (it, ctx)).2).Nodup) := by
  induction ops with
  | nil => exact fun it ctx => ⟨fun k hk => hk, fun k hk => Or.inl hk, id⟩
  | cons op rest ih =>
      intro it ctx
      cases op with
      | adv =>
          have h2 : it.Next ctx ctx = ((it.Next ctx ctx).1, ctx) := by
            cases hf : it.filep <;> simp [RbtStringTokenIter.Next, hf]
          simp only [runOps, classifiedNames]
          rw [h2]
          exact ih (it.Next ctx ctx).1 ctx
      | curr =>
          cases hc : it.Current ctx with
          | error e =>
              simp only [runOps, classifiedNames, hc]
              exact ⟨fun k hk => hk, fun k hk => Or.inl hk, id⟩
          | ok p =>
              obtain ⟨t, it', ctx'⟩ := p
              obtain ⟨htr, _⟩ := current_ok_inv it ctx t it' ctx' hc
              obtain ⟨i1, i2, i3⟩ := ih it' ctx'
              cases t with
              | op c =>
                  have hctx : ctx' = ctx := by
                    rcases translate_ok_cases ctx it.strtok (.op c) ctx' htr
                      with h' | ⟨v, hv, _⟩
                    · exact h'
                    · exact RbtToken.noConfusion hv
                  subst hctx
                  simp only [runOps, classifiedNames, hc]
                  exact ⟨i1, i2, i3⟩
              | vble n =>
                  obtain ⟨s1, s2, s3, _⟩ :=
                    translate_step_keys ctx it.strtok (.vble n) ctx' htr
                  have hn : ∀ k ∈ ctxKeys ctx', k ∈ ctxKeys ctx ∨ k = n := by
                    rcases translate_ok_cases ctx it.strtok (.vble n) ctx' htr
                      with h' | ⟨v, hv, _⟩
                    · exact fun k hk => Or.inl (h' ▸ hk)
                    · injection hv with hv'
                      intro k hk
                      rcases s2 k hk with h'' | h''
                      · exact Or.inl h''
                      · exact Or.inr (by rw [h'']; exact hv'.symm)
                  simp only [runOps, classifiedNames, hc]
                  refine ⟨fun k hk => i1 k (s1 k hk), ?_,
                    fun hnd => i3 (s3 hnd)⟩
                  intro k hk
                  rcases i2 k hk with hk' | hk'
                  · rcases hn k hk' with h' | h'
                    · exact Or.inl h'
                    · exact Or.inr (by simp [h'])
                  · exact Or.inr (List.mem_cons_of_mem _ hk')

/-- C8: during tokenization the Context only grows.  Along any sequence of
`Current()`/`Advance()` operations no entry is removed, each successful
classification adds at most one entry, and the Context's size is bounded by
its initial size plus the number of distinct variable names and literal
strings classified so far (operator classifications add none). -/
theorem context_only_grows (ops : List IterOp) (it : RbtStringTokenIter)
    (ctx : RbtContext) (hnd : (ctxKeys ctx).Nodup) :
    (∀ k ∈ ctxKeys ctx, k ∈ ctxKeys (runOps ops (it, ctx)).2) ∧
    (∀ ctx₂ w t ctx₃, RbtStringTokenIter.translate ctx₂ w = .ok (t, ctx₃) →
      (ctxKeys ctx₃).length ≤ (ctxKeys ctx₂).length + 1) ∧
    (ctxKeys (runOps ops (it, ctx)).2).length ≤
      (ctxKeys ctx).length + (classifiedNames ops (it, ctx)).dedup.length := by
  obtain ⟨g1, g2, g3⟩ := runOps_keys ops it ctx
  refine ⟨g1,
    fun ctx₂ w t ctx₃ h => (translate_step_keys ctx₂ w t ctx₃ h).2.2.2, ?_⟩
  have hndF := g3 hnd
  have hsub : ∀ k ∈ ctxKeys (runOps ops (it, ctx)).2,
      k ∈ ctxKeys ctx ++ classifiedNames ops (it, ctx) := by
    intro k hk
    rcases g2 k hk with h' | h'
    · exact List.mem_append_left _ h'
    · exact List.mem_append_right _ h'
  calc (ctxKeys (runOps ops (it, ctx)).2).length
      = (ctxKeys (runOps ops (it, ctx)).2).toFinset.card :=
        (List.toFinset_card_of_nodup hndF).symm
    _ ≤ (ctxKeys ctx ++ classifiedNames ops (it, ctx)).toFinset.card := by
        apply Finset.card_le_card
        intro x hx
        rw [List.mem_toFinset] at hx ⊢
        exact hsub x hx
    _ = ((ctxKeys ctx).toFinset ∪
          (classifiedNames ops (it, ctx)).toFinset).card := by
        rw [List.toFinset_append]
    _ ≤ (ctxKeys ctx).toFinset.card +
          (classifiedNames ops (it, ctx)).toFinset.card :=
        Finset.card_union_le _ _
    _ ≤ (ctxKeys ctx).length +
          (classifiedNames ops (it, ctx)).dedup.length := by
        rw [List.toFinset_card_of_nodup hnd, List.card_toFinset]

/-- Witness for C8: the run `Current(); Advance(); Current()` over the
stream `["2", "+"]` from the empty Context — the bound counts only the
literal `"2"`, not the operator word `"+"`. -/
theorem context_only_grows_witness :
    (∀ k ∈ ctxKeys ([] : RbtContext),
      k ∈ ctxKeys
        (runOps [IterOp.curr, IterOp.adv, IterOp.curr]
          (RbtStringTokenIter.mkIter ["2", "+"], [])).2) ∧
    (∀ ctx₂ w t ctx₃, RbtStringTokenIter.translate ctx₂ w = .ok (t, ctx₃) →
      (ctxKeys ctx₃).length ≤ (ctxKeys ctx₂).length + 1) ∧
    (ctxKeys
        (runOps [IterOp.curr, IterOp.adv, IterOp.curr]
          (RbtStringTokenIter.mkIter ["2", "+"], [])).2).length ≤
      (ctxKeys ([] : RbtContext)).length +
        (classifiedNames [IterOp.curr, IterOp.adv, IterOp.curr]
          (RbtStringTokenIter.mkIter ["2", "+"], [])).dedup.length :=
  context_only_grows [IterOp.curr, IterOp.adv, IterOp.curr]
    (RbtStringTokenIter.mkIter ["2", "+"]) [] List.nodup_nil
